import Mathlib

/-!
A shallow embedding of `src/ReactKit/Base/RCTBridge.m` (the batched ObjC ↔ JS
call bridge): registry construction, inbound batch decoding and dispatch,
argument marshaling, callback correlation, and bridge lifecycle.

Naming follows the source: `RCTBridgeModuleClasses`, `RCTRemoteModulesConfig`,
`RCTLocalModulesConfig`, `enqueueJSCall`, `handleBuffer` (for `-_handleBuffer:`),
`handleRequestNumber` (for `-_handleRequestNumber:moduleID:methodID:params:`),
`createResponseSenderBlock`, `invalidate`, `initWithJavaScriptExecutor`.
-/

namespace ReactBridge

/--
Structured values of the opaque wire codec (what `RCTJSONParse` can produce
and what crosses the bridge as `id`): `NSNull`, `NSNumber` (numeric and
boolean), `NSString`, `NSArray`, `NSDictionary`.  `null` also stands for a
`nil` buffer, which `-_handleBuffer:` treats the same as `kCFNull`.
-/
inductive Value where
  | null
  | num (n : Int)
  | str (s : String)
  | boolean (b : Bool)
  | array (elems : List Value)
  | object (fields : List (String × Value))

/--
`-[NSNumber integerValue]` as applied to a decoded wire value (the source
sends `[methodIDs[i] integerValue]` and `[param integerValue]`); a boolean
`NSNumber` yields 0/1, and non-numbers (which never carry IDs in well-formed
traffic) are given the default 0.
-/
def Value.integerValue : Value → Int
  | .num n => n
  | .boolean b => if b then 1 else 0
  | _ => 0

/-- `[v isKindOfClass:[NSArray class]]`. -/
def Value.isNSArray : Value → Bool
  | .array _ => true
  | _ => false

/-- The element list of an `NSArray` value (only used after `isNSArray`). -/
def Value.elements : Value → List Value
  | .array xs => xs
  | _ => []

/-- `NSDictionary` lookup: tables are modelled as entry lists in insertion
(= enumeration) order, looked up by key equality. -/
def dictLookup {k : Type} {a : Type} [BEq k] (m : List (k × a)) (key : k) :
    Option a :=
  (m.find? (fun p => p.1 == key)).map (fun p => p.2)

/-- `NSDictionary` key-membership test. -/
def dictContains {k : Type} {a : Type} [BEq k] (m : List (k × a)) (key : k) :
    Bool :=
  (dictLookup m key).isSome

/--
`NSMutableDictionary` assignment `m[key] = v`: overwrite in place when the key
exists, otherwise append a fresh entry (entry order models enumeration order).
-/
def dictInsert {k : Type} {a : Type} [BEq k] (m : List (k × a)) (key : k)
    (v : a) : List (k × a) :=
  if dictContains m key then
    m.map (fun p => if p.1 == key then (key, v) else p)
  else
    m ++ [(key, v)]

/-- The key list of a dictionary. -/
def dictKeys {k : Type} {a : Type} (m : List (k × a)) : List k :=
  m.map (fun p => p.1)

theorem dictLookup_nil {k : Type} {a : Type} [BEq k] (key : k) :
    dictLookup ([] : List (k × a)) key = none := rfl

theorem dictLookup_cons {k : Type} {a : Type} [BEq k] (p : k × a)
    (m : List (k × a)) (key : k) :
    dictLookup (p :: m) key =
      if p.1 == key then some p.2 else dictLookup m key := by
  simp only [dictLookup, List.find?]
  cases h : (p.1 == key) <;> simp

theorem dictLookup_append {k : Type} {a : Type} [BEq k] (m n : List (k × a))
    (key : k) :
    dictLookup (m ++ n) key =
      ((dictLookup m key).rec (dictLookup n key) (fun v => some v) : Option a) := by
  induction m with
  | nil => simp [dictLookup_nil]
  | cons p m ih =>
      rw [List.cons_append, dictLookup_cons, dictLookup_cons]
      cases hp : (p.1 == key) <;> simp [ih]

theorem dictContains_iff {k : Type} {a : Type} [BEq k] [LawfulBEq k]
    (m : List (k × a)) (key : k) :
    dictContains m key = true ↔ key ∈ dictKeys m := by
  induction m with
  | nil => simp [dictContains, dictLookup_nil, dictKeys]
  | cons p m ih =>
      simp only [dictContains, dictLookup_cons, dictKeys, List.map_cons,
        List.mem_cons] at *
      cases hp : (p.1 == key)
      · have hne : ¬p.1 = key := by simpa using hp
        rw [if_neg (by simp [hp])]
        constructor
        · intro h
          exact Or.inr (ih.mp h)
        · intro h
          rcases h with h | h
          · exact absurd h.symm hne
          · exact ih.mpr h
      · have heq : p.1 = key := by simpa using hp
        simp [heq, hp]

theorem dictLookup_eq_none_iff {k : Type} {a : Type} [BEq k] [LawfulBEq k]
    (m : List (k × a)) (key : k) :
    dictLookup m key = none ↔ key ∉ dictKeys m := by
  constructor
  · intro h hk
    have := (dictContains_iff m key).mpr hk
    simp [dictContains, h] at this
  · intro hk
    cases h : dictLookup m key with
    | none => rfl
    | some v =>
        exact absurd ((dictContains_iff m key).mp (by simp [dictContains, h])) hk

theorem dictInsert_of_not_mem {k : Type} {a : Type} [BEq k] [LawfulBEq k]
    (m : List (k × a)) (key : k) (v : a) (h : key ∉ dictKeys m) :
    dictInsert m key v = m ++ [(key, v)] := by
  have hc : dictContains m key = false := by
    cases hc : dictContains m key
    · rfl
    · exact absurd ((dictContains_iff m key).mp hc) h
  simp [dictInsert, hc]

theorem dictKeys_append {k : Type} {a : Type} (m n : List (k × a)) :
    dictKeys (m ++ n) = dictKeys m ++ dictKeys n := by
  simp [dictKeys]

theorem dictKeys_dictInsert_mem {k : Type} {a : Type} [BEq k] [LawfulBEq k]
    (m : List (k × a)) (key : k) (v : a) (h : key ∈ dictKeys m) :
    dictKeys (dictInsert m key v) = dictKeys m := by
  have hc : dictContains m key = true := (dictContains_iff m key).mpr h
  simp only [dictInsert, hc, if_pos]
  simp only [dictKeys, List.map_map]
  apply List.map_congr_left
  intro p _
  by_cases hp : p.1 = key
  · simp [hp]
  · simp [Function.comp, hp]

theorem mem_dictKeys_dictInsert {k : Type} {a : Type} [BEq k] [LawfulBEq k]
    (m : List (k × a)) (key key2 : k) (v : a)
    (h : key2 ∈ dictKeys m ∨ key2 = key) :
    key2 ∈ dictKeys (dictInsert m key v) := by
  by_cases hk : key ∈ dictKeys m
  · rw [dictKeys_dictInsert_mem m key v hk]
    rcases h with h | h
    · exact h
    · exact h ▸ hk
  · rw [dictInsert_of_not_mem m key v hk, dictKeys_append]
    rcases h with h | h
    · exact List.mem_append_left _ h
    · exact List.mem_append_right _ (by simp [dictKeys, h])

/-!
## Data model

`RCTModuleMethod`, the runtime classes scanned by `RCTBridgeModuleClasses`,
the module instances held in `_moduleInstances`, and the bridge state.
-/

/--
`RCTModuleMethod`: selector, exposed JS method name, arity (argument count
minus the two implicit ObjC arguments), block-typed argument positions, and
the ObjC type codes of the JS-visible arguments (what
`[methodSignature getArgumentTypeAtIndex:idx + 2]` reports at dispatch).
-/
structure MethodInfo where
  selector : String
  JSMethodName : String
  arity : Nat
  blockArgumentIndexes : List Nat
  argumentTypes : List Char

/--
One runtime class as seen by `RCTBridgeModuleClasses`: its class name, the
optional `+moduleName` override, whether it has a superclass, whether it
conforms to `RCTBridgeModule`, the optional `+constantsToExport` payload, and
the optional `+JSMethods` list (empty when the class does not override it).
The flags record which optional selectors its instances respond to.
-/
structure ObjCClass where
  className : String
  customModuleName : Option String
  hasSuperclass : Bool
  conformsToBridgeModule : Bool
  constantsToExport : Option Value
  JSMethods : List String
  respondsToBatchDidComplete : Bool
  respondsToInvalidate : Bool

/-- `[cls respondsToSelector:@selector(moduleName)] ? [cls moduleName] : NSStringFromClass(cls)`. -/
def ObjCClass.moduleName (cls : ObjCClass) : String :=
  cls.customModuleName.getD cls.className

/-- A live module instance in `_moduleInstances`. -/
structure ModuleInstance where
  name : String
  respondsToBatchDidComplete : Bool
  respondsToInvalidate : Bool

/--
The bridge state observable by dispatch: whether `_javaScriptExecutor` is
still set, the `RCTRemoteModulesByID` table (module ID → module name), the
`RCTExportedMethodsByModule()` table (module name → exported methods), and
`_moduleInstances`.
-/
structure BridgeState where
  hasJavaScriptExecutor : Bool
  remoteModulesByID : List (Nat × String)
  exportedMethodsByModule : List (String × List MethodInfo)
  moduleInstances : List ModuleInstance

/-- `-isValid`: `_javaScriptExecutor != nil`. -/
def BridgeState.isValid (st : BridgeState) : Bool :=
  st.hasJavaScriptExecutor

/-- One message handed to `-[RCTJavaScriptExecutor executeJSCall:method:arguments:callback:]`. -/
structure Envelope where
  module : String
  method : String
  arguments : List Value

/--
Fatal errors (`RCTAssert` / `RCTCAssert` sites): a duplicate module name in
`RCTBridgeModuleClasses`, a malformed `Module.method` string in
`RCTLocalModulesConfig`, and the two asserts in `-enqueueJSCall:args:` for a
`moduleDotMethod` missing from `RCTLocalModuleIDs` / `RCTLocalMethodIDs`
(the spec's `UnknownLocalMethod`).
-/
inductive BridgeFatal where
  | duplicateModuleRegistration (moduleName : String)
  | invalidJSMethodFormat (moduleDotMethod : String)
  | moduleNotRegistered (moduleName : String)
  | methodNotRegistered (moduleDotMethod : String)

/--
Non-fatal diagnostics emitted through `RCTLogMustFix`.  `RCTLog.h` is not in
the source tree; `RCTLogMustFix` is modelled as recording a log event and
returning, which is forced by `RCTBridge.m` itself: every `RCTLogMustFix`
call site is followed by live code (`return NO;` feeding a loop that
continues with the next request), and the spec confirms the request-level
events are log-and-continue.
-/
inductive LogEvent where
  | bufferNotArray
  | malformedFieldCount (expected actual : Nat)
  | fieldNotArray (fieldIndex : Nat)
  | unequalLengths (numRequests : Nat)
  | invalidParamsTuple (requestIndex : Nat)
  | unknownModuleID (moduleID : Value)
  | unknownMethodID (methodID : Int) (moduleName : String)
  | arityMismatch (expected got : Nat) (moduleName methodName : String)
  | noModuleInstance (moduleName : String)
  | configInjectionTimeout

/--
The spec's `MalformedBatchShape` category: the batch-shape diagnostics of
`decodeBatch` (buffer not a sequence, wrong field count, a primary field not
a sequence, unequal primary-field lengths).
-/
def LogEvent.isMalformedBatchShape : LogEvent → Bool
  | .bufferNotArray => true
  | .malformedFieldCount _ _ => true
  | .fieldNotArray _ => true
  | .unequalLengths _ => true
  | _ => false

/-!
## Capability registry: `RCTBridgeModuleClasses`

Scans the runtime class list; skips classes without a superclass and classes
not conforming to `RCTBridgeModule`; `RCTCAssert`s that no two registered
classes claim the same module name.  The platform class-list scan is
parametrized by the list of runtime classes.
-/

/-- `class_getSuperclass(cls) && [cls conformsToProtocol:@protocol(RCTBridgeModule)]`. -/
def ObjCClass.isBridgeModule (cls : ObjCClass) : Bool :=
  cls.hasSuperclass && cls.conformsToBridgeModule

/-- The fold step of `RCTBridgeModuleClasses`: one iteration of the class loop. -/
def registerModuleClass (acc : Except BridgeFatal (List (String × ObjCClass)))
    (cls : ObjCClass) : Except BridgeFatal (List (String × ObjCClass)) :=
  match acc with
  | .error e => .error e
  | .ok modules =>
      if cls.isBridgeModule then
        if dictContains modules cls.moduleName then
          .error (.duplicateModuleRegistration cls.moduleName)
        else
          .ok (modules ++ [(cls.moduleName, cls)])
      else
        .ok modules

/--
`RCTBridgeModuleClasses()`: the module-name → class table, or the
`DuplicateModuleRegistration` fatal when two registered classes share a name.
-/
def RCTBridgeModuleClasses (classes : List ObjCClass) :
    Except BridgeFatal (List (String × ObjCClass)) :=
  classes.foldl registerModuleClass (.ok [])

/-!
## Remote modules configuration: `RCTRemoteModulesConfig`

Enumerates `RCTExportedMethodsByModule()` (the parsed `RCTExport` section,
parametrized here as the discovered module-name → method-list table), assigns
each module the next module ID (`remoteModules.count`), builds the per-module
method-name → method-ID dictionary from the method enumeration index, attaches
`+constantsToExport` when the class overrides it, and records the reverse
`RCTRemoteModulesByID` table.
-/

/-- One entry of the remote modules configuration. -/
structure RemoteModule where
  moduleID : Nat
  methods : List (String × Nat)
  constants : Option Value

/-- The loop of `[rawMethods enumerateObjectsUsingBlock:...]`: `methodID` is
the enumeration index, and the dictionary is keyed by `JSMethodName`. -/
def buildMethodsTableGo (acc : List (String × Nat)) (methodID : Nat) :
    List MethodInfo → List (String × Nat)
  | [] => acc
  | m :: rest => buildMethodsTableGo (dictInsert acc m.JSMethodName methodID) (methodID + 1) rest

/-- The `methods` dictionary of one remote module. -/
def buildMethodsTable (rawMethods : List MethodInfo) : List (String × Nat) :=
  buildMethodsTableGo [] 0 rawMethods

/-- The two tables built by `RCTRemoteModulesConfig`: `remoteModules` and the
module-ID → module-name lookup `RCTRemoteModulesByID`. -/
structure RemoteConfig where
  remoteModules : List (String × RemoteModule)
  remoteModulesByID : List (Nat × String)

/-- One iteration of the `RCTExportedMethodsByModule()` enumeration block. -/
def remoteConfigStep (moduleClasses : List (String × ObjCClass))
    (acc : RemoteConfig) (entry : String × List MethodInfo) : RemoteConfig :=
  let methods := buildMethodsTable entry.2
  let moduleID := acc.remoteModules.length
  let constants := (dictLookup moduleClasses entry.1).bind
    (fun cls => cls.constantsToExport)
  let module : RemoteModule := ⟨moduleID, methods, constants⟩
  ⟨dictInsert acc.remoteModules entry.1 module,
   dictInsert acc.remoteModulesByID moduleID entry.1⟩

/-- `RCTRemoteModulesConfig()`, parametrized by the `RCTBridgeModuleClasses()`
table (for constants) and the discovered exported-methods table. -/
def RCTRemoteModulesConfig (moduleClasses : List (String × ObjCClass))
    (methodsByModule : List (String × List MethodInfo)) : RemoteConfig :=
  methodsByModule.foldl (remoteConfigStep moduleClasses) ⟨[], []⟩

/-!
## Local modules configuration: `RCTLocalModulesConfig`

Seeds the globally used `Module.method` names, appends each registered class's
`+JSMethods`, and folds: split on `"."` (`RCTCAssert`ing exactly two parts),
create the module entry on first sight with ID `localModules.count`, create
the method entry on first sight with ID `methods.count`, and record the
`RCTLocalModuleIDs` / `RCTLocalMethodIDs` lookups keyed by the full name.
-/

/-- One entry of the local modules configuration. -/
structure LocalModule where
  moduleID : Nat
  methods : List (String × Nat)

/-- The three tables built by `RCTLocalModulesConfig`: `localModules`,
`RCTLocalModuleIDs`, and `RCTLocalMethodIDs`. -/
structure LocalConfig where
  localModules : List (String × LocalModule)
  localModuleIDs : List (String × Nat)
  localMethodIDs : List (String × Nat)

/-- Accumulator of `-[NSString componentsSeparatedByString:@"."]` over the
character data. -/
def componentsAux (current : List Char) : List Char → List String
  | [] => [String.mk current.reverse]
  | c :: rest =>
      if c == '.' then String.mk current.reverse :: componentsAux [] rest
      else componentsAux (c :: current) rest

/-- `[moduleDotMethod componentsSeparatedByString:@"."]`. -/
def componentsSeparatedByDot (s : String) : List String :=
  componentsAux [] s.data

/-- One iteration of the `for (NSString *moduleDotMethod in JSMethods)` loop. -/
def localConfigStep (acc : Except BridgeFatal LocalConfig)
    (moduleDotMethod : String) : Except BridgeFatal LocalConfig :=
  match acc with
  | .error e => .error e
  | .ok cfg =>
      match componentsSeparatedByDot moduleDotMethod with
      | [moduleName, methodName] =>
          let found := dictLookup cfg.localModules moduleName
          let module : LocalModule :=
            match found with
            | some m => m
            | none => ⟨cfg.localModules.length, []⟩
          let localModules1 :=
            match found with
            | some _ => cfg.localModules
            | none => dictInsert cfg.localModules moduleName module
          let methods1 :=
            if dictContains module.methods methodName then module.methods
            else dictInsert module.methods methodName module.methods.length
          let localModules2 :=
            dictInsert localModules1 moduleName ⟨module.moduleID, methods1⟩
          let methodID := (dictLookup methods1 methodName).getD 0
          .ok ⟨localModules2,
               dictInsert cfg.localModuleIDs moduleDotMethod module.moduleID,
               dictInsert cfg.localMethodIDs moduleDotMethod methodID⟩
      | _ => .error (.invalidJSMethodFormat moduleDotMethod)

/-- The globally used methods seeded into `JSMethods` unconditionally. -/
def defaultJSMethods : List String :=
  ["Bundler.runApplication",
   "RCTEventEmitter.receiveEvent",
   "RCTEventEmitter.receiveTouches"]

/-- The core fold of `RCTLocalModulesConfig()` over the collected name list. -/
def RCTLocalModulesConfig (JSMethods : List String) :
    Except BridgeFatal LocalConfig :=
  JSMethods.foldl localConfigStep (.ok ⟨[], [], []⟩)

/-- The `JSMethods` list: the global defaults followed by each registered
class's `+JSMethods` contribution. -/
def collectJSMethods (moduleClasses : List (String × ObjCClass)) : List String :=
  defaultJSMethods ++ moduleClasses.foldr (fun p r => p.2.JSMethods ++ r) []

/-!
## Outbound dispatch and callback correlator

`-enqueueJSCall:args:`, `-_invokeAndProcessModule:method:arguments:`,
`-_sendResponseToJavaScriptCallbackID:args:`, `-createResponseSenderBlock:`.
An outbound call is one `executeJSCall` message to the script runtime,
modelled as an `Envelope`; the response buffer it later hands back is
processed by `handleBuffer` and is not part of the emission.
-/

/-- `-_invokeAndProcessModule:method:arguments:` emits exactly one
`executeJSCall` message to the script runtime. -/
def invokeAndProcessModule (module method : String) (args : List Value) :
    List Envelope :=
  [⟨module, method, args⟩]

/-- `-_sendResponseToJavaScriptCallbackID:args:`: routes `(cbID, args)` to the
fixed `BatchedBridge.invokeCallbackAndReturnFlushedQueue` entry point. -/
def sendResponseToJavaScriptCallbackID (cbID : Int) (args : List Value) :
    List Envelope :=
  invokeAndProcessModule "BatchedBridge" "invokeCallbackAndReturnFlushedQueue"
    [.num cbID, .array args]

/-- `-createResponseSenderBlock:`: `nil` for the zero sentinel, otherwise a
closure that re-enters the outbound path with `(cbID, args)`. -/
def createResponseSenderBlock (cbID : Int) :
    Option (List Value → List Envelope) :=
  if cbID = 0 then none
  else some (fun args => sendResponseToJavaScriptCallbackID cbID args)

/-- `-enqueueJSCall:args:`: looks `moduleDotMethod` up in `RCTLocalModuleIDs`
and `RCTLocalMethodIDs`; each miss is a fatal `RCTAssert` reached before any
envelope is emitted, so the error carries no envelope list. -/
def enqueueJSCall (localModuleIDs localMethodIDs : List (String × Nat))
    (moduleDotMethod : String) (args : List Value) :
    Except BridgeFatal (List Envelope) :=
  match dictLookup localModuleIDs moduleDotMethod with
  | none =>
      .error (.moduleNotRegistered
        ((componentsSeparatedByDot moduleDotMethod).headD ""))
  | some moduleID =>
      match dictLookup localMethodIDs moduleDotMethod with
      | none => .error (.methodNotRegistered moduleDotMethod)
      | some methodID =>
          .ok (invokeAndProcessModule "BatchedBridge"
            "callFunctionReturnFlushedQueue"
            [.num moduleID, .num methodID, .array args])

/-- The envelopes a fallible outbound call actually emitted (a fatal assert
fires before emission, so the error case emits none). -/
def sentEnvelopes (r : Except BridgeFatal (List Envelope)) : List Envelope :=
  match r with
  | .error _ => []
  | .ok es => es

/-!
## Argument marshaling

The `enumerateObjectsUsingBlock` body of
`-_handleRequestNumber:moduleID:methodID:params:`: first the `NSNull` → `nil`
substitution, then the response-sender substitution at block-typed positions,
then the per-type-code coercion switch whose fallback passes the value
through unchanged.
-/

/-- What occupies an argument slot after the `NSNull`/block substitution:
`nil`, a synthesized response-sender block, or the raw decoded value. -/
inductive ObjCArg where
  | nilValue
  | callbackBlock (cbID : Int)
  | value (v : Value)

/-- The argument finally stored into the `NSInvocation` slot. -/
inductive MarshaledArg where
  | selectorArg (s : String)
  | cStringArg (s : String)
  | numericArg (code : Char) (v : Value)
  | objectArg (a : ObjCArg)

/-- The type codes of the numeric `CASE` macro expansions. -/
def numericTypeCodes : List Char :=
  ['c', 'C', 's', 'S', 'i', 'I', 'l', 'L', 'q', 'Q', 'f', 'd', 'B']

/--
`[param respondsToSelector:@selector(...Value)]` for the numeric coercion
cases: `NSNumber` (numbers and booleans) responds to every `...Value`
selector; `NSString` responds only to `intValue` (`i`), `longLongValue` (`q`),
`floatValue` (`f`), `doubleValue` (`d`) and `boolValue` (`B`); `nil`, blocks
and the container classes respond to none of them.
-/
def respondsToNumericSelector (a : ObjCArg) (code : Char) : Bool :=
  match a with
  | .value (.num _) => true
  | .value (.boolean _) => true
  | .value (.str _) => code ∈ ['i', 'q', 'f', 'd', 'B']
  | _ => false

/-- The raw value underlying an argument (for recording what a fired numeric
case extracted from). -/
def ObjCArg.rawValue : ObjCArg → Value
  | .value v => v
  | _ => .null

/--
The coercion switch on `argumentType[0]`: `:` and `*` fire only on
`NSString`; a numeric case fires only when the param responds to its
extraction selector; every other path leaves `shouldSet` true and stores the
param unchanged.
-/
def coerceArgument (code : Char) (a : ObjCArg) : MarshaledArg :=
  if code = ':' then
    match a with
    | .value (.str s) => .selectorArg s
    | _ => .objectArg a
  else if code = '*' then
    match a with
    | .value (.str s) => .cStringArg s
    | _ => .objectArg a
  else if code ∈ numericTypeCodes then
    if respondsToNumericSelector a code then .numericArg code a.rawValue
    else .objectArg a
  else
    .objectArg a

/--
Marshaling of the parameter at position `idx`: `NSNull` becomes `nil` first
(so a null even at a block-typed position never synthesizes a callback),
otherwise a block-typed position gets the response sender for
`[param integerValue]`, and then the coercion switch runs on the method
signature type code for the slot (`'@'`, a plain object, when out of range —
unreachable when the signature covers the arity).
-/
def marshalParam (method : MethodInfo) (idx : Nat) (param : Value) :
    MarshaledArg :=
  let objcArg : ObjCArg :=
    match param with
    | .null => .nilValue
    | p =>
        if idx ∈ method.blockArgumentIndexes then
          .callbackBlock p.integerValue
        else
          .value p
  coerceArgument ((method.argumentTypes.get? idx).getD '@') objcArg

/-- Marshaling of a whole `params` array in position order. -/
def marshalParams (method : MethodInfo) (params : List Value) :
    List MarshaledArg :=
  (params.enum).map (fun p => marshalParam method p.1 p.2)

/-!
## Inbound batch processing

`-_handleBuffer:` and `-_handleRequestNumber:moduleID:methodID:params:`.
The per-request `dispatch_async` onto the serial `_shadowQueue` is modelled by
recording, per request, what its scheduled unit does when the queue runs it
(requests of one batch are enqueued and run in ascending index order).
-/

/-- `RCTBridgeFields` (kept in sync with `MessageQueue.js`). -/
def RCTBridgeFieldRequestModuleIDs : Nat := 0

/-- Second buffer field: the method IDs. -/
def RCTBridgeFieldMethodIDs : Nat := 1

/-- Third buffer field: the params arrays. -/
def RCTBridgeFieldParamss : Nat := 2

/-- Fourth buffer field: the response callback IDs. -/
def RCTBridgeFieldResponseCBIDs : Nat := 3

/-- Fifth buffer field: the response return values. -/
def RCTBridgeFieldResponseReturnValues : Nat := 4

/-- Sixth enum member; note `-_handleBuffer:` never reads this field. -/
def RCTBridgeFieldFlushDateMillis : Nat := 5

/-- `RCTBridgeFieldResponseReturnValues + 1`: the exact field count
`-_handleBuffer:` insists the inbound buffer has. -/
def expectedFieldsCount : Nat := RCTBridgeFieldResponseReturnValues + 1

/-- `[@(key) isEqual:v]` for the `NSNumber`-keyed `RCTRemoteModulesByID`
lookup: only an `NSNumber` (numeric or boolean) of equal value matches. -/
def valueMatchesNumberKey (key : Nat) : Value → Bool
  | .num n => n == (key : Int)
  | .boolean b => (if b then (1 : Int) else 0) == (key : Int)
  | _ => false

/-- `RCTRemoteModulesByID[moduleID]` where `moduleID` is the raw decoded
buffer entry. -/
def lookupModuleName (byID : List (Nat × String)) (moduleID : Value) :
    Option String :=
  (byID.find? (fun p => valueMatchesNumberKey p.1 moduleID)).map (fun p => p.2)

/-- One actually performed `NSInvocation`: the resolved module and method and
the marshaled arguments. -/
structure Invocation where
  moduleName : String
  method : MethodInfo
  args : List MarshaledArg

/-- What the `dispatch_async` unit of one validated request does when the
serial queue runs it: return early because the bridge was invalidated, hit
the `RCTAssert(target != nil, ...)`, or perform the invocation. -/
inductive ScheduledUnitResult where
  | earlyReturnInvalid
  | assertionNoModuleInstance (moduleName : String)
  | invoked (inv : Invocation)

/-- The outcome of `-_handleRequestNumber:moduleID:methodID:params:` for one
request: the scheduled unit (`none` when validation failed and nothing was
enqueued), the diagnostics logged, and the method's `BOOL` return. -/
structure RequestResult where
  scheduled : Option ScheduledUnitResult
  logs : List LogEvent
  returned : Bool

/-- The invocation a request's scheduled unit actually performed, if any. -/
def RequestResult.invocation (r : RequestResult) : Option Invocation :=
  match r.scheduled with
  | some (.invoked inv) => some inv
  | _ => none

/-- The module names with a live instance in `_moduleInstances`. -/
def BridgeState.instanceNames (st : BridgeState) : List String :=
  st.moduleInstances.map (fun m => m.name)

/--
The `dispatch_async` block enqueued for one validated request: when the
serial queue runs it, it first re-checks `strongSelf.isValid` and returns
early if the bridge was invalidated; it then `RCTAssert`s that a live target
instance exists; otherwise it marshals the params and performs the
invocation.
-/
def scheduledUnit (st : BridgeState) (moduleName : String)
    (method : MethodInfo) (paramsList : List Value) : ScheduledUnitResult :=
  if st.isValid then
    if st.instanceNames.contains moduleName then
      .invoked ⟨moduleName, method, marshalParams method paramsList⟩
    else
      .assertionNoModuleInstance moduleName
  else
    .earlyReturnInvalid

/--
`-_handleRequestNumber:moduleID:methodID:params:`: params must be an
`NSArray`; the module ID must resolve through `RCTRemoteModulesByID`; the
method ID must be in range for the module's exported methods (a negative
`NSInteger` compares above the unsigned `count`); the params count must equal
the method arity.  On success the invocation unit is `dispatch_async`ed onto
the shadow queue, where it first re-checks `isValid`, then asserts the target
instance exists, then marshals and invokes.
-/
def handleRequestNumber (st : BridgeState) (i : Nat) (moduleID : Value)
    (methodID : Int) (params : Value) : RequestResult :=
  match params with
  | .array paramsList =>
      match lookupModuleName st.remoteModulesByID moduleID with
      | none => ⟨none, [.unknownModuleID moduleID], false⟩
      | some moduleName =>
          let methods := (dictLookup st.exportedMethodsByModule moduleName).getD []
          if methodID < 0 ∨ (methods.length : Int) ≤ methodID then
            ⟨none, [.unknownMethodID methodID moduleName], false⟩
          else
            match methods.get? methodID.toNat with
            | none => ⟨none, [.unknownMethodID methodID moduleName], false⟩
            | some method =>
                if paramsList.length ≠ method.arity then
                  ⟨none,
                   [.arityMismatch method.arity paramsList.length moduleName
                      method.JSMethodName],
                   false⟩
                else
                  ⟨some (scheduledUnit st moduleName method paramsList), [], true⟩
  | _ => ⟨none, [.invalidParamsTuple i], false⟩

/-- Elementwise triple zip of the three parallel request sequences. -/
def zip3 {α β γ : Type} : List α → List β → List γ → List (α × β × γ)
  | a :: as, b :: bs, c :: cs => (a, b, c) :: zip3 as bs cs
  | _, _, _ => []

/-- The observable outcome of `-_handleBuffer:`: the invocations performed,
the diagnostics logged, and the modules notified by the trailing
`batchDidComplete` unit. -/
structure BatchResult where
  invocations : List Invocation
  logs : List LogEvent
  batchDidCompleteTargets : List String

/-- The live instances that respond to `batchDidComplete` (the trailing
`dispatch_async` notifies each of them, with no validity check). -/
def batchDidCompleteTargets (st : BridgeState) : List String :=
  (st.moduleInstances.filter (fun m => m.respondsToBatchDidComplete)).map
    (fun m => m.name)

/-- The per-request loop of `-_handleBuffer:` over the validated parallel
sequences, followed by the batch-complete notification unit. -/
def handleValidBatch (st : BridgeState)
    (moduleIDs methodIDs paramsArrays : List Value) : BatchResult :=
  let results := ((zip3 moduleIDs methodIDs paramsArrays).enum).map
    (fun p => handleRequestNumber st p.1 p.2.1 p.2.2.1.integerValue p.2.2.2)
  ⟨results.filterMap RequestResult.invocation,
   results.foldr (fun r acc => r.logs ++ acc) [],
   batchDidCompleteTargets st⟩

/-- The shape checks of `-_handleBuffer:` on the five buffer fields: the
first three fields must each be an `NSArray` (checked in index order) and
must have equal lengths; fields 3 and 4 are never read. -/
def handleBatchFields (st : BridgeState) (f0 f1 f2 _f3 _f4 : Value) :
    BatchResult :=
  if !f0.isNSArray then ⟨[], [.fieldNotArray 0], []⟩
  else if !f1.isNSArray then ⟨[], [.fieldNotArray 1], []⟩
  else if !f2.isNSArray then ⟨[], [.fieldNotArray 2], []⟩
  else
    let moduleIDs := f0.elements
    let methodIDs := f1.elements
    let paramsArrays := f2.elements
    let numRequests := moduleIDs.length
    if numRequests = methodIDs.length ∧ numRequests = paramsArrays.length then
      handleValidBatch st moduleIDs methodIDs paramsArrays
    else
      ⟨[], [.unequalLengths numRequests], []⟩

/--
`-_handleBuffer:` (the spec's `processBatch`): a `nil` or `kCFNull` buffer
returns silently; a non-array buffer is logged; a buffer whose field count
differs from `expectedFieldsCount` is logged and dropped whole (the
five-element destructuring realizes `bufferRowCount != expectedFieldsCount`
plus the subsequent field indexing); otherwise the field shape checks and the
per-request loop run.
-/
def handleBuffer (st : BridgeState) (buffer : Value) : BatchResult :=
  match buffer with
  | .null => ⟨[], [], []⟩
  | .array [f0, f1, f2, f3, f4] => handleBatchFields st f0 f1 f2 f3 f4
  | .array fields =>
      ⟨[], [.malformedFieldCount expectedFieldsCount fields.length], []⟩
  | _ => ⟨[], [.bufferNotArray], []⟩

/-!
## Bridge lifecycle

`-invalidate` and `-initWithJavaScriptExecutor:`.
-/

/--
`-invalidate`: clear `_javaScriptExecutor` first (so in-flight units observe
invalidity), drain the shadow queue, send `invalidate` to each instance that
responds to it, then empty `_moduleInstances`.  Returns the new state and the
teardown notifications sent.
-/
def invalidate (st : BridgeState) : BridgeState × List String :=
  ({ st with hasJavaScriptExecutor := false, moduleInstances := [] },
   (st.moduleInstances.filter (fun m => m.respondsToInvalidate)).map
     (fun m => m.name))

/--
`-initWithJavaScriptExecutor:`: register classes (fatal on a duplicate
module name), instantiate one module per registered class, build both
configuration tables (fatal on a malformed `Module.method` name), inject the
encoded config and block on the acknowledgement semaphore with a one-second
timeout.  `ackWithinTimeout` says whether the executor's injection callback
signalled within that bound; when it did not, the timeout is logged through
`RCTLogMustFix` and construction continues to return the (valid) bridge.
-/
def initWithJavaScriptExecutor (classes : List ObjCClass)
    (methodsByModule : List (String × List MethodInfo))
    (ackWithinTimeout : Bool) :
    Except BridgeFatal (BridgeState × List LogEvent) :=
  match RCTBridgeModuleClasses classes with
  | .error e => .error e
  | .ok moduleClasses =>
      let instances := moduleClasses.map (fun p =>
        ModuleInstance.mk p.1 p.2.respondsToBatchDidComplete
          p.2.respondsToInvalidate)
      let remote := RCTRemoteModulesConfig moduleClasses methodsByModule
      match RCTLocalModulesConfig (collectJSMethods moduleClasses) with
      | .error e => .error e
      | .ok _localConfig =>
          let logs :=
            if ackWithinTimeout then [] else [LogEvent.configInjectionTimeout]
          .ok ({ hasJavaScriptExecutor := true,
                 remoteModulesByID := remote.remoteModulesByID,
                 exportedMethodsByModule := methodsByModule,
                 moduleInstances := instances }, logs)

/-!
## Helper lemmas about batch processing
-/

theorem handleBuffer_not_five (st : BridgeState) (fields : List Value)
    (h : fields.length ≠ 5) :
    handleBuffer st (.array fields) =
      ⟨[], [.malformedFieldCount expectedFieldsCount fields.length], []⟩ := by
  rcases fields with _ | ⟨a, _ | ⟨b, _ | ⟨c, _ | ⟨d, _ | ⟨e, rest⟩⟩⟩⟩⟩
  · rfl
  · rfl
  · rfl
  · rfl
  · rfl
  · rcases rest with _ | ⟨x, rest⟩
    · exact absurd rfl h
    · rfl

theorem handleBuffer_five (st : BridgeState) (f0 f1 f2 f3 f4 : Value) :
    handleBuffer st (.array [f0, f1, f2, f3, f4]) =
      handleBatchFields st f0 f1 f2 f3 f4 := rfl

/-!
## Claim theorems
-/

/-- Shared concrete fixture: an exported method of arity 0. -/
def sampleMethod : MethodInfo :=
  ⟨"doThing", "doThing", 0, [], []⟩

/-- Shared concrete fixture: a valid bridge exposing `SampleModule` under
module ID 7, with one arity-0 method and a live instance. -/
def sampleBridgeState : BridgeState :=
  { hasJavaScriptExecutor := true,
    remoteModulesByID := [(7, "SampleModule")],
    exportedMethodsByModule := [("SampleModule", [sampleMethod])],
    moduleInstances := [⟨"SampleModule", false, false⟩] }

/--
Claim C1 (amended): an inbound batch buffer is accepted by `handleBuffer`
only if it is an ordered sequence of exactly `expectedFieldsCount = 5` fields
`[requestModuleIDs, methodIDs, paramsArrays, responseCallbackIDs,
responseReturnValues]`; a buffer whose field count is anything other than 5 —
including the six-field form ending in `flushDateMillis` — is rejected with a
`MalformedBatchShape` diagnostic and dispatches zero requests.
-/
theorem handleBuffer_rejects_wrong_field_count (st : BridgeState)
    (fields : List Value) (h : fields.length ≠ expectedFieldsCount) :
    handleBuffer st (.array fields) =
      ⟨[], [.malformedFieldCount expectedFieldsCount fields.length], []⟩ ∧
    expectedFieldsCount = 5 :=
  ⟨handleBuffer_not_five st fields h, rfl⟩

/-- Claim C1, witness: a six-field buffer (the shape the original claim calls
well-formed) is rejected whole with the field-count diagnostic. -/
theorem handleBuffer_rejects_wrong_field_count_witness :
    handleBuffer sampleBridgeState
        (.array [.array [.num 7], .array [.num 0], .array [.array []],
                 .array [], .array [], .num 0]) =
      ⟨[], [.malformedFieldCount expectedFieldsCount 6], []⟩ ∧
    expectedFieldsCount = 5 :=
  handleBuffer_rejects_wrong_field_count sampleBridgeState
    [.array [.num 7], .array [.num 0], .array [.array []],
     .array [], .array [], .num 0] (by decide)

/--
Claim C1, counterexample to the claim as stated: a buffer with five fields —
a field count other than 6 — is not rejected; it dispatches one request
(the claim asserts any buffer with a field count other than 6 dispatches
zero requests).
-/
theorem handleBuffer_five_fields_dispatches :
    (handleBuffer sampleBridgeState
        (.array [.array [.num 7], .array [.num 0], .array [.array []],
                 .array [], .array []])).invocations.length = 1 ∧
    (Value.array [.array [.num 7], .array [.num 0], .array [.array []],
                  .array [], .array []]).elements.length = 5 := by
  constructor
  · rfl
  · rfl

/--
Claim C2: an inbound batch whose first three fields are ordered sequences of
unequal lengths dispatches zero requests and logs a `MalformedBatchShape`
diagnostic — the entire buffer is dropped.
-/
theorem handleBuffer_rejects_unequal_lengths (st : BridgeState)
    (fields : List Value) (a b c : List Value)
    (h0 : fields.get? 0 = some (.array a))
    (h1 : fields.get? 1 = some (.array b))
    (h2 : fields.get? 2 = some (.array c))
    (hne : ¬(a.length = b.length ∧ a.length = c.length)) :
    (handleBuffer st (.array fields)).invocations = [] ∧
    ((handleBuffer st (.array fields)).logs.any
        LogEvent.isMalformedBatchShape) = true := by
  by_cases h5 : fields.length = 5
  · rcases fields with _ | ⟨f0, _ | ⟨f1, _ | ⟨f2, _ | ⟨f3, _ | ⟨f4, rest⟩⟩⟩⟩⟩ <;>
      simp only [List.length_cons, List.length_nil] at h5
    · omega
    · omega
    · omega
    · omega
    · omega
    rcases rest with _ | ⟨x, rest⟩
    · simp only [List.get?] at h0 h1 h2
      have hf0 : f0 = .array a := by injection h0
      have hf1 : f1 = .array b := by injection h1
      have hf2 : f2 = .array c := by injection h2
      subst hf0; subst hf1; subst hf2
      rw [handleBuffer_five, handleBatchFields]
      simp [Value.isNSArray, Value.elements, hne, LogEvent.isMalformedBatchShape]
    · simp only [List.length_cons] at h5
      omega
  · rw [handleBuffer_not_five st fields h5]
    exact ⟨rfl, rfl⟩

/-- Claim C2, witness: primary fields of lengths 3, 3 and 2 yield zero
dispatched requests and a malformed-shape diagnostic. -/
theorem handleBuffer_rejects_unequal_lengths_witness :
    (handleBuffer sampleBridgeState
        (.array [.array [.num 7, .num 7, .num 7],
                 .array [.num 0, .num 0, .num 0],
                 .array [.array [], .array []],
                 .array [], .array []])).invocations = [] ∧
    ((handleBuffer sampleBridgeState
        (.array [.array [.num 7, .num 7, .num 7],
                 .array [.num 0, .num 0, .num 0],
                 .array [.array [], .array []],
                 .array [], .array []])).logs.any
        LogEvent.isMalformedBatchShape) = true :=
  handleBuffer_rejects_unequal_lengths sampleBridgeState
    [.array [.num 7, .num 7, .num 7],
     .array [.num 0, .num 0, .num 0],
     .array [.array [], .array []],
     .array [], .array []]
    [.num 7, .num 7, .num 7] [.num 0, .num 0, .num 0] [.array [], .array []]
    rfl rfl rfl (by decide)

/--
Claim C6: for every `moduleDotMethod` absent from the script-side registry
(the built `RCTLocalModuleIDs` table) and every argument list, `enqueueJSCall`
fails fatally (the spec's `UnknownLocalMethod`) and emits no envelope to the
script runtime — the assert fires before any message is sent.
-/
theorem enqueueJSCall_unknown_local_method
    (localModuleIDs localMethodIDs : List (String × Nat))
    (moduleDotMethod : String) (args : List Value)
    (h : moduleDotMethod ∉ dictKeys localModuleIDs) :
    enqueueJSCall localModuleIDs localMethodIDs moduleDotMethod args =
      .error (.moduleNotRegistered
        ((componentsSeparatedByDot moduleDotMethod).headD "")) ∧
    sentEnvelopes
      (enqueueJSCall localModuleIDs localMethodIDs moduleDotMethod args) = [] := by
  have hlk : dictLookup localModuleIDs moduleDotMethod = none :=
    (dictLookup_eq_none_iff _ _).mpr h
  refine ⟨?_, ?_⟩ <;> simp [enqueueJSCall, hlk, sentEnvelopes]

/-- Claim C6, witness: `"Unregistered.method"` against the local registry
built from the default `JSMethods` list fails fatally with no envelope. -/
theorem enqueueJSCall_unknown_local_method_witness :
    enqueueJSCall
        [("Bundler.runApplication", 0), ("RCTEventEmitter.receiveEvent", 1),
         ("RCTEventEmitter.receiveTouches", 1)]
        [("Bundler.runApplication", 0), ("RCTEventEmitter.receiveEvent", 0),
         ("RCTEventEmitter.receiveTouches", 1)]
        "Unregistered.method" [] =
      .error (.moduleNotRegistered
        ((componentsSeparatedByDot "Unregistered.method").headD "")) ∧
    sentEnvelopes
      (enqueueJSCall
        [("Bundler.runApplication", 0), ("RCTEventEmitter.receiveEvent", 1),
         ("RCTEventEmitter.receiveTouches", 1)]
        [("Bundler.runApplication", 0), ("RCTEventEmitter.receiveEvent", 0),
         ("RCTEventEmitter.receiveTouches", 1)]
        "Unregistered.method" []) = [] :=
  enqueueJSCall_unknown_local_method _ _ "Unregistered.method" [] (by decide)

/--
Claim C7: for every nonzero correlation id, the correlator synthesizes a
callback, and invoking it once with any argument sequence emits exactly one
outbound envelope carrying `(cbID, args)` to the fixed
`BatchedBridge.invokeCallbackAndReturnFlushedQueue` delivery entry point.
-/
theorem createResponseSenderBlock_single_envelope (cbID : Int)
    (args : List Value) (h : cbID ≠ 0) :
    ∃ f, createResponseSenderBlock cbID = some f ∧
      f args = [⟨"BatchedBridge", "invokeCallbackAndReturnFlushedQueue",
                 [.num cbID, .array args]⟩] ∧
      (f args).length = 1 := by
  refine ⟨fun a => sendResponseToJavaScriptCallbackID cbID a, ?_, rfl, rfl⟩
  simp [createResponseSenderBlock, h]

/-- Claim C7, witness: correlation id 42 invoked with `["ok"]`. -/
theorem createResponseSenderBlock_single_envelope_witness :
    ∃ f, createResponseSenderBlock 42 = some f ∧
      f [.str "ok"] = [⟨"BatchedBridge", "invokeCallbackAndReturnFlushedQueue",
                        [.num 42, .array [.str "ok"]]⟩] ∧
      (f [.str "ok"]).length = 1 :=
  createResponseSenderBlock_single_envelope 42 [.str "ok"] (by decide)

/-- `coerceArgument` can never turn `nil` into anything but `nil` passed
through unchanged: no coercion case fires on `nil`. -/
theorem coerceArgument_nilValue (code : Char) :
    coerceArgument code .nilValue = .objectArg .nilValue := by
  unfold coerceArgument
  split_ifs <;> simp_all [respondsToNumericSelector]

/--
Claim C10: a parameter equal to the serialized null sentinel is converted to
`nil` before callback synthesis and coercion: for every method and parameter
position — including block-typed positions — marshaling `null` stores `nil`
into the invocation slot.  In particular a null at a callback-typed position
yields a nil callback rather than a synthesized pending one, and null is
never passed to the native method as a non-null object.
-/
theorem marshalParam_null_is_nil (method : MethodInfo) (idx : Nat) :
    marshalParam method idx Value.null = .objectArg .nilValue ∧
    ∀ cbID, marshalParam method idx Value.null ≠
      .objectArg (.callbackBlock cbID) := by
  have h : marshalParam method idx Value.null = .objectArg .nilValue := by
    unfold marshalParam
    exact coerceArgument_nilValue _
  refine ⟨h, fun cbID hcb => ?_⟩
  rw [h] at hcb
  exact absurd (by injection hcb) (by intro hx; cases hx)

/--
If the bridge is invalid, the scheduled unit of every request returns early,
so no request of any batch produces an invocation.
-/
theorem handleRequestNumber_invocation_none_of_invalid (st : BridgeState)
    (h : st.isValid = false) (i : Nat) (moduleID : Value) (methodID : Int)
    (params : Value) :
    (handleRequestNumber st i moduleID methodID params).invocation = none := by
  unfold handleRequestNumber
  repeat' split
  all_goals simp [RequestResult.invocation, scheduledUnit, h]
  all_goals repeat' split
  all_goals try rfl
  all_goals (rename_i heq; (repeat' split at heq) <;> simp_all)

theorem handleValidBatch_invalid (st : BridgeState) (h : st.isValid = false)
    (moduleIDs methodIDs paramsArrays : List Value) :
    (handleValidBatch st moduleIDs methodIDs paramsArrays).invocations = [] := by
  unfold handleValidBatch
  refine List.filterMap_eq_nil_iff.mpr ?_
  intro r hr
  rcases List.mem_map.mp hr with ⟨p, _, hp⟩
  rw [← hp]
  exact handleRequestNumber_invocation_none_of_invalid st h _ _ _ _

/--
Claim C8: after `invalidate` has completed, every buffer delivered to
`handleBuffer` results in zero dispatched invocations (the scheduled units
observe the cleared executor and return early), and no emptied module
instance is notified of batch completion either.
-/
theorem handleBuffer_after_invalidate (st : BridgeState) (buffer : Value) :
    (handleBuffer ((invalidate st).1) buffer).invocations = [] ∧
    (handleBuffer ((invalidate st).1) buffer).batchDidCompleteTargets = [] := by
  have hvalid : ((invalidate st).1).isValid = false := rfl
  have hinst : ((invalidate st).1).moduleInstances = [] := rfl
  rcases buffer with _ | n | s | b | fields | kvs
  · exact ⟨rfl, rfl⟩
  · exact ⟨rfl, rfl⟩
  · exact ⟨rfl, rfl⟩
  · exact ⟨rfl, rfl⟩
  · by_cases h5 : fields.length = 5
    · rcases fields with _ | ⟨f0, _ | ⟨f1, _ | ⟨f2, _ | ⟨f3, _ | ⟨f4, rest⟩⟩⟩⟩⟩ <;>
        simp only [List.length_cons, List.length_nil] at h5
      · omega
      · omega
      · omega
      · omega
      · omega
      rcases rest with _ | ⟨x, rest⟩
      · rw [handleBuffer_five]
        unfold handleBatchFields
        dsimp only
        repeat' split
        · exact ⟨rfl, rfl⟩
        · exact ⟨rfl, rfl⟩
        · exact ⟨rfl, rfl⟩
        · refine ⟨handleValidBatch_invalid _ hvalid _ _ _, ?_⟩
          show batchDidCompleteTargets (invalidate st).1 = []
          simp [batchDidCompleteTargets, hinst]
        · exact ⟨rfl, rfl⟩
      · simp only [List.length_cons] at h5
        omega
    · rw [handleBuffer_not_five _ fields h5]
      exact ⟨rfl, rfl⟩
  · exact ⟨rfl, rfl⟩

/-- The exposed names of the classes that `RCTBridgeModuleClasses` actually
registers (superclass present and protocol conformance), in scan order. -/
def eligibleModuleNames (classes : List ObjCClass) : List String :=
  (classes.filter (fun c => c.isBridgeModule)).map ObjCClass.moduleName

theorem foldl_registerModuleClass_error (l : List ObjCClass) (e : BridgeFatal) :
    l.foldl registerModuleClass (.error e) = .error e := by
  induction l with
  | nil => rfl
  | cons c rest ih => simpa [registerModuleClass] using ih

theorem registerModuleClasses_error_of_dup (l : List ObjCClass) :
    ∀ m : List (String × ObjCClass), (dictKeys m).Nodup →
    ¬(dictKeys m ++ eligibleModuleNames l).Nodup →
    ∃ name, l.foldl registerModuleClass (.ok m)
      = .error (.duplicateModuleRegistration name) := by
  induction l with
  | nil =>
      intro m hm hdup
      exact absurd (by simpa using hm) (by simpa [eligibleModuleNames] using hdup)
  | cons c rest ih =>
      intro m hm hdup
      by_cases hel : c.isBridgeModule
      · by_cases hmem : dictContains m c.moduleName
        · refine ⟨c.moduleName, ?_⟩
          have hstep : registerModuleClass (.ok m) c
              = .error (.duplicateModuleRegistration c.moduleName) := by
            simp [registerModuleClass, hel, hmem]
          rw [List.foldl_cons, hstep]
          exact foldl_registerModuleClass_error rest _
        · have hnotin : c.moduleName ∉ dictKeys m := by
            intro hin
            exact absurd ((dictContains_iff m c.moduleName).mpr hin)
              (by simpa using hmem)
          have hstep : registerModuleClass (.ok m) c
              = .ok (m ++ [(c.moduleName, c)]) := by
            simp [registerModuleClass, hel, hmem]
          rw [List.foldl_cons, hstep]
          apply ih
          · rw [dictKeys_append]
            refine List.Nodup.append hm (List.nodup_singleton _) ?_
            intro a ha hb
            simp only [dictKeys, List.map_cons, List.map_nil,
              List.mem_singleton] at hb
            exact hnotin (hb ▸ ha)
          · intro hnd
            apply hdup
            have hlist : dictKeys m ++ eligibleModuleNames (c :: rest)
                = dictKeys (m ++ [(c.moduleName, c)])
                    ++ eligibleModuleNames rest := by
              rw [dictKeys_append]
              simp [eligibleModuleNames, hel, dictKeys]
            rw [hlist]
            exact hnd
      · have hstep : registerModuleClass (.ok m) c = .ok m := by
          simp [registerModuleClass, hel]
        rw [List.foldl_cons, hstep]
        apply ih m hm
        intro hnd
        apply hdup
        have hlist : eligibleModuleNames (c :: rest) = eligibleModuleNames rest := by
          simp [eligibleModuleNames, hel]
        rw [hlist]
        exact hnd

/--
Claim C4: if two classes the registry scan registers (both conforming, with a
superclass) claim the same exposed module name, `RCTBridgeModuleClasses`
fails fatally with `DuplicateModuleRegistration` — it never returns a table,
so no silent aliasing or overwrite of one module by the other can occur.
-/
theorem duplicate_module_name_aborts_registration (classes : List ObjCClass)
    (i j : Fin (eligibleModuleNames classes).length) (hij : i ≠ j)
    (hname : (eligibleModuleNames classes).get i
      = (eligibleModuleNames classes).get j) :
    (∃ name, RCTBridgeModuleClasses classes
      = .error (.duplicateModuleRegistration name)) ∧
    ∀ table, RCTBridgeModuleClasses classes ≠ .ok table := by
  have hdup : ¬(eligibleModuleNames classes).Nodup := by
    intro hnd
    exact hij ((List.nodup_iff_injective_get.mp hnd) hname)
  obtain ⟨name, hname2⟩ := registerModuleClasses_error_of_dup classes []
    (by simp [dictKeys]) (by simpa [dictKeys] using hdup)
  have hres : RCTBridgeModuleClasses classes
      = .error (.duplicateModuleRegistration name) := hname2
  refine ⟨⟨name, hres⟩, fun table htab => ?_⟩
  rw [hres] at htab
  cases htab

/-- Fixture for the C4 witness: a class whose own name is `DupModule`. -/
def dupClassA : ObjCClass :=
  ⟨"DupModule", none, true, true, none, [], false, false⟩

/-- Fixture for the C4 witness: a differently named class whose `+moduleName`
override also claims `DupModule`. -/
def dupClassB : ObjCClass :=
  ⟨"OtherClass", some "DupModule", true, true, none, [], false, false⟩

/-- Claim C4, witness: two registered classes claiming `DupModule` make the
registry build fail fatally before any table exists. -/
theorem duplicate_module_name_aborts_registration_witness :
    (∃ name, RCTBridgeModuleClasses [dupClassA, dupClassB]
      = .error (.duplicateModuleRegistration name)) ∧
    ∀ table, RCTBridgeModuleClasses [dupClassA, dupClassB] ≠ .ok table :=
  duplicate_module_name_aborts_registration [dupClassA, dupClassB]
    ⟨0, by decide⟩ ⟨1, by decide⟩ (by decide) (by decide)

/--
Claim C5 (amended): bridge construction blocks the constructing thread on the
config-injection acknowledgement with a bounded (one-second) timeout; when
the acknowledgement does not arrive in time, the timeout is logged through
`RCTLogMustFix` and construction nevertheless completes and returns a valid
(active) bridge — it does not fail fatally.  (The only fatal construction
errors are the registry build failures.)
-/
theorem init_logs_and_continues_after_config_timeout (classes : List ObjCClass)
    (methodsByModule : List (String × List MethodInfo)) (ack : Bool)
    (moduleClasses : List (String × ObjCClass)) (lcfg : LocalConfig)
    (hc : RCTBridgeModuleClasses classes = .ok moduleClasses)
    (hl : RCTLocalModulesConfig (collectJSMethods moduleClasses) = .ok lcfg) :
    ∃ st logs,
      initWithJavaScriptExecutor classes methodsByModule ack = .ok (st, logs) ∧
      st.isValid = true ∧
      logs = (if ack then [] else [LogEvent.configInjectionTimeout]) := by
  simp only [initWithJavaScriptExecutor, hc, hl]
  exact ⟨_, _, rfl, rfl, rfl⟩

/-- Claim C5, witness: with an empty class scan and the acknowledgement
arriving in time, construction returns a valid bridge with no diagnostics. -/
theorem init_logs_and_continues_witness :
    ∃ st logs,
      initWithJavaScriptExecutor [] [] true = .ok (st, logs) ∧
      st.isValid = true ∧
      logs = (if true then [] else [LogEvent.configInjectionTimeout]) :=
  init_logs_and_continues_after_config_timeout [] [] true _ _ rfl rfl

/--
Claim C5, counterexample to the claim as stated: when the acknowledgement
never arrives within the timeout, construction does not fail fatally with
`ConfigInjectionTimeout`; it logs the timeout and still produces a valid
bridge that proceeds to the active state.
-/
theorem init_timeout_returns_valid_bridge :
    ∃ st, initWithJavaScriptExecutor [] [] false
        = .ok (st, [LogEvent.configInjectionTimeout]) ∧
      st.isValid = true :=
  ⟨⟨true, [], [], []⟩, rfl, rfl⟩

theorem handleValidBatch_invocations (st : BridgeState)
    (moduleIDs methodIDs paramsArrays : List Value) :
    (handleValidBatch st moduleIDs methodIDs paramsArrays).invocations =
      ((zip3 moduleIDs methodIDs paramsArrays).enum).filterMap
        (fun p => (handleRequestNumber st p.1 p.2.1 p.2.2.1.integerValue
          p.2.2.2).invocation) := by
  unfold handleValidBatch
  dsimp only
  rw [List.filterMap_map]
  rfl

theorem filterMap_eq_filterMap_filter {α β : Type} (f : α → Option β)
    (g : α → Bool) (l : List α)
    (h : ∀ x ∈ l, g x = false → f x = none) :
    l.filterMap f = (l.filter g).filterMap f := by
  induction l with
  | nil => rfl
  | cons x xs ih =>
      have hxs : ∀ y ∈ xs, g y = false → f y = none := fun y hy =>
        h y (List.mem_cons_of_mem _ hy)
      have hx := h x (List.mem_cons_self x xs)
      cases hg : g x
      · rw [List.filterMap_cons, hx hg, List.filter_cons, hg]
        exact ih hxs
      · rw [List.filter_cons, hg]
        simp only [if_true, List.filterMap_cons]
        cases f x <;> simp [ih hxs]

theorem handleValidBatch_logs (st : BridgeState)
    (moduleIDs methodIDs paramsArrays : List Value) :
    (handleValidBatch st moduleIDs methodIDs paramsArrays).logs =
      (((zip3 moduleIDs methodIDs paramsArrays).enum).map
        (fun p => (handleRequestNumber st p.1 p.2.1 p.2.2.1.integerValue
          p.2.2.2).logs)).flatten := by
  unfold handleValidBatch
  dsimp only
  generalize (zip3 moduleIDs methodIDs paramsArrays).enum = l
  induction l with
  | nil => rfl
  | cons x xs ih =>
      simp only [List.map_cons, List.foldr_cons, List.flatten_cons]
      rw [ih]

/--
Claim C3: within a validated batch, a request that fails per-request
validation contributes no invocation while every other request of the batch
is dispatched exactly as it would be on its own — the batch's invocation list
equals the per-request results of all the other indices, in order — and the
batch's log is exactly the concatenation of the per-request diagnostics, so
the failing request's own diagnostic is logged; that diagnostic is the
corresponding error for the failure cause: `UnknownModuleID` when the module
ID does not resolve, `UnknownMethodID` when the method ID is out of range for
the module, and `ArityMismatch` when the params count differs from the
resolved method's arity.
-/
theorem failed_request_dropped_alone (st : BridgeState)
    (moduleIDs methodIDs paramsArrays : List Value) (f3 f4 : Value)
    (hlen1 : moduleIDs.length = methodIDs.length)
    (hlen2 : moduleIDs.length = paramsArrays.length)
    (k : Nat)
    (hk : ∀ t, (zip3 moduleIDs methodIDs paramsArrays)[k]? = some t →
      (handleRequestNumber st k t.1 t.2.1.integerValue t.2.2).invocation = none) :
    ((handleBuffer st (.array [.array moduleIDs, .array methodIDs,
        .array paramsArrays, f3, f4])).invocations =
      (((zip3 moduleIDs methodIDs paramsArrays).enum).filter
          (fun p => p.1 ≠ k)).filterMap
        (fun p => (handleRequestNumber st p.1 p.2.1 p.2.2.1.integerValue
          p.2.2.2).invocation)) ∧
    ((handleBuffer st (.array [.array moduleIDs, .array methodIDs,
        .array paramsArrays, f3, f4])).logs =
      (((zip3 moduleIDs methodIDs paramsArrays).enum).map
        (fun p => (handleRequestNumber st p.1 p.2.1 p.2.2.1.integerValue
          p.2.2.2).logs)).flatten) ∧
    (∀ (i : Nat) (moduleID : Value) (methodID : Int)
        (paramsList : List Value),
      (lookupModuleName st.remoteModulesByID moduleID = none →
        (handleRequestNumber st i moduleID methodID (.array paramsList)).logs
          = [.unknownModuleID moduleID]) ∧
      (∀ moduleName, lookupModuleName st.remoteModulesByID moduleID
          = some moduleName →
        (methodID < 0 ∨
          (((dictLookup st.exportedMethodsByModule moduleName).getD
            []).length : Int) ≤ methodID) →
        (handleRequestNumber st i moduleID methodID (.array paramsList)).logs
          = [.unknownMethodID methodID moduleName]) ∧
      (∀ moduleName method,
        lookupModuleName st.remoteModulesByID moduleID = some moduleName →
        ¬(methodID < 0 ∨
          (((dictLookup st.exportedMethodsByModule moduleName).getD
            []).length : Int) ≤ methodID) →
        ((dictLookup st.exportedMethodsByModule moduleName).getD
          []).get? methodID.toNat = some method →
        paramsList.length ≠ method.arity →
        (handleRequestNumber st i moduleID methodID (.array paramsList)).logs
          = [.arityMismatch method.arity paramsList.length moduleName
              method.JSMethodName])) := by
  have hb : handleBuffer st (.array [.array moduleIDs, .array methodIDs,
      .array paramsArrays, f3, f4])
      = handleValidBatch st moduleIDs methodIDs paramsArrays := by
    rw [handleBuffer_five]
    have hsh : handleBatchFields st (.array moduleIDs) (.array methodIDs)
        (.array paramsArrays) f3 f4 =
        if moduleIDs.length = methodIDs.length ∧
            moduleIDs.length = paramsArrays.length then
          handleValidBatch st moduleIDs methodIDs paramsArrays
        else
          ⟨[], [.unequalLengths moduleIDs.length], []⟩ := rfl
    rw [hsh, if_pos ⟨hlen1, hlen2⟩]
  refine ⟨?_, ?_, ?_⟩
  · rw [hb, handleValidBatch_invocations]
    apply filterMap_eq_filterMap_filter
    intro p hp hpk
    have hp1 : p.1 = k := by
      by_contra hne
      simp [hne] at hpk
    have hget : (zip3 moduleIDs methodIDs paramsArrays)[p.1]? = some p.2 :=
      List.mem_enum_iff_getElem?.mp hp
    rw [hp1] at hget
    have := hk p.2 hget
    rw [hp1]
    exact this
  · rw [hb, handleValidBatch_logs]
  · intro i moduleID methodID paramsList
    refine ⟨?_, ?_, ?_⟩
    · intro hnone
      unfold handleRequestNumber
      simp only [hnone]
    · intro moduleName hsome hcond
      unfold handleRequestNumber
      simp only [hsome]
      rw [if_pos hcond]
    · intro moduleName method hsome hncond hget harity
      unfold handleRequestNumber
      simp only [hsome]
      rw [if_neg hncond]
      simp only [hget]
      rw [if_pos harity]

/-- Claim C3, witness: the batch `moduleIDs=[7, 99]`, `methodIDs=[0, 0]`,
`paramsArrays=[[], []]` against a registry where module 7 exists and 99 does
not dispatches exactly the one request `(SampleModule, method 0)` and logs
exactly the `UnknownModuleID` diagnostic for the skipped index 1. -/
theorem failed_request_dropped_alone_witness :
    (handleBuffer sampleBridgeState
        (.array [.array [.num 7, .num 99], .array [.num 0, .num 0],
                 .array [.array [], .array []], .array [],
                 .array []])).invocations =
      [⟨"SampleModule", sampleMethod, []⟩] ∧
    (handleBuffer sampleBridgeState
        (.array [.array [.num 7, .num 99], .array [.num 0, .num 0],
                 .array [.array [], .array []], .array [],
                 .array []])).logs = [.unknownModuleID (.num 99)] := by
  have h := failed_request_dropped_alone sampleBridgeState
    [.num 7, .num 99] [.num 0, .num 0] [.array [], .array []]
    (.array []) (.array []) rfl rfl 1
    (by
      intro t ht
      simp only [zip3] at ht
      injection ht with ht2
      rw [← ht2]
      rfl)
  exact ⟨h.1.trans (by rfl), h.2.1.trans (by rfl)⟩

/-!
## Registry uniqueness and completeness (claim C9)

Characterizations of the three table builds, leading to: module IDs are
pairwise distinct, method IDs are pairwise distinct within each module, and
every discovered module and declared method appears in the built tables.
-/

theorem dictLookup_isSome_of_mem {k : Type} {a : Type} [BEq k] [LawfulBEq k]
    (m : List (k × a)) (key : k) (h : key ∈ dictKeys m) :
    ∃ v, dictLookup m key = some v := by
  have hc := (dictContains_iff m key).mpr h
  simp only [dictContains, Option.isSome_iff_exists] at hc
  exact hc

theorem dictLookup_mem {k : Type} {a : Type} [BEq k] [LawfulBEq k]
    (m : List (k × a)) (key : k) (v : a) (h : dictLookup m key = some v) :
    (key, v) ∈ m := by
  induction m with
  | nil => simp [dictLookup_nil] at h
  | cons p rest ih =>
      rw [dictLookup_cons] at h
      by_cases hk : p.1 = key
      · rw [if_pos (by simpa using hk)] at h
        have hp : p = (key, v) := by
          cases p
          simp only [Prod.mk.injEq]
          exact ⟨hk, Option.some.inj h⟩
        exact hp ▸ List.mem_cons_self p rest
      · rw [if_neg (by simpa using hk)] at h
        exact List.mem_cons_of_mem p (ih h)

theorem dictLookup_eq_of_mem_nodup {k : Type} {a : Type} [BEq k] [LawfulBEq k]
    (m : List (k × a)) (key : k) (v : a) (hnd : (dictKeys m).Nodup)
    (hp : (key, v) ∈ m) : dictLookup m key = some v := by
  induction m with
  | nil => simp at hp
  | cons q rest ih =>
      rcases List.mem_cons.mp hp with hq | hq
      · rw [dictLookup_cons, ← hq]
        simp
      · have hkey : key ∈ dictKeys rest :=
          List.mem_map.mpr ⟨(key, v), hq, rfl⟩
        have hqk : ¬q.1 = key := by
          intro he
          rw [dictKeys, List.map_cons] at hnd
          exact absurd (he ▸ hkey) (List.nodup_cons.mp hnd).1
        rw [dictLookup_cons, if_neg (by simpa using hqk)]
        exact ih (List.nodup_cons.mp hnd).2 hq

theorem mem_dictInsert {k : Type} {a : Type} [BEq k] [LawfulBEq k]
    (m : List (k × a)) (key : k) (v : a) (p : k × a)
    (h : p ∈ dictInsert m key v) : p = (key, v) ∨ p ∈ m := by
  unfold dictInsert at h
  split at h
  · obtain ⟨q, hq, hpq⟩ := List.mem_map.mp h
    by_cases hk : q.1 = key
    · rw [if_pos (by simpa using hk)] at hpq
      exact Or.inl hpq.symm
    · rw [if_neg (by simpa using hk)] at hpq
      exact Or.inr (hpq ▸ hq)
  · rcases List.mem_append.mp h with h2 | h2
    · exact Or.inr h2
    · exact Or.inl (by simpa using h2)

theorem dictLookup_map_overwrite {k : Type} {a : Type} [BEq k] [LawfulBEq k]
    (key : k) (v : a) :
    ∀ m : List (k × a), dictContains m key = true →
      dictLookup (m.map (fun p => if p.1 == key then (key, v) else p)) key
        = some v := by
  intro m
  induction m with
  | nil => intro h; simp [dictContains, dictLookup_nil] at h
  | cons p rest ih =>
      intro h
      by_cases hk : p.1 = key
      · rw [List.map_cons, if_pos (by simpa using hk), dictLookup_cons]
        simp
      · rw [List.map_cons, if_neg (by simpa using hk), dictLookup_cons,
          if_neg (by simpa using hk)]
        apply ih
        simp only [dictContains, dictLookup_cons,
          if_neg (show ¬(p.1 == key) = true by simpa using hk)] at h
        exact h

theorem dictLookup_dictInsert_self {k : Type} {a : Type} [BEq k] [LawfulBEq k]
    (m : List (k × a)) (key : k) (v : a) :
    dictLookup (dictInsert m key v) key = some v := by
  unfold dictInsert
  split
  · next hcon => exact dictLookup_map_overwrite key v m hcon
  · rw [dictLookup_append]
    next hcon =>
      cases hm : dictLookup m key with
      | none => simp [dictLookup_cons]
      | some w => exact absurd (by simp [dictContains, hm]) hcon

theorem dictInsert_map_snd {k : Type} {a : Type} {b : Type} [BEq k]
    [LawfulBEq k] (m : List (k × a)) (key : k) (v w : a) (g : a → b)
    (hnd : (dictKeys m).Nodup) (hw : dictLookup m key = some w)
    (hg : g v = g w) :
    (dictInsert m key v).map (fun p => g p.2) = m.map (fun p => g p.2) := by
  have hcon : dictContains m key = true := by simp [dictContains, hw]
  unfold dictInsert
  rw [if_pos hcon, List.map_map]
  apply List.map_congr_left
  intro p hp
  by_cases hk : p.1 = key
  · have hpw : p = (key, w) := by
      have hp2 : (key, p.2) ∈ m := by
        have : p = (key, p.2) := by
          cases p
          simp only [Prod.mk.injEq]
          exact ⟨hk, trivial⟩
        exact this ▸ hp
      have := dictLookup_eq_of_mem_nodup m key p.2 hnd hp2
      rw [this] at hw
      have hv2 : p.2 = w := Option.some.inj hw
      cases p
      simp only [Prod.mk.injEq]
      exact ⟨hk, hv2⟩
    rw [hpw]
    simp [Function.comp, hg]
  · simp [Function.comp, hk]

theorem dictInsert_length_of_mem {k : Type} {a : Type} [BEq k] [LawfulBEq k]
    (m : List (k × a)) (key : k) (v : a) (h : key ∈ dictKeys m) :
    (dictInsert m key v).length = m.length := by
  have hc : dictContains m key = true := (dictContains_iff m key).mpr h
  simp [dictInsert, hc]

theorem dictKeys_nodup_dictInsert {k : Type} {a : Type} [BEq k] [LawfulBEq k]
    (m : List (k × a)) (key : k) (v : a) (h : (dictKeys m).Nodup) :
    (dictKeys (dictInsert m key v)).Nodup := by
  by_cases hk : key ∈ dictKeys m
  · rw [dictKeys_dictInsert_mem m key v hk]
    exact h
  · rw [dictInsert_of_not_mem m key v hk, dictKeys_append]
    refine List.Nodup.append h (List.nodup_singleton _) ?_
    intro x hx hx2
    simp only [dictKeys, List.map_cons, List.map_nil,
      List.mem_singleton] at hx2
    exact hk (hx2 ▸ hx)

/-- Characterization target for `buildMethodsTable`: the method named at
position `p` of the discovery order receives method ID `n + p`. -/
def methodEntriesFrom (n : Nat) : List MethodInfo → List (String × Nat)
  | [] => []
  | m :: rest => (m.JSMethodName, n) :: methodEntriesFrom (n + 1) rest

theorem dictKeys_methodEntriesFrom (l : List MethodInfo) :
    ∀ n, dictKeys (methodEntriesFrom n l) = l.map MethodInfo.JSMethodName := by
  induction l with
  | nil => intro n; rfl
  | cons m rest ih =>
      intro n
      simp only [methodEntriesFrom, dictKeys, List.map_cons] at *
      rw [ih]

theorem methodEntriesFrom_snd_ge (l : List MethodInfo) :
    ∀ n v, v ∈ (methodEntriesFrom n l).map (fun p => p.2) → n ≤ v := by
  induction l with
  | nil => intro n v hv; simp [methodEntriesFrom] at hv
  | cons m rest ih =>
      intro n v hv
      simp only [methodEntriesFrom, List.map_cons, List.mem_cons] at hv
      rcases hv with hv | hv
      · omega
      · have := ih (n + 1) v hv
        omega

theorem methodEntriesFrom_snd_nodup (l : List MethodInfo) :
    ∀ n, ((methodEntriesFrom n l).map (fun p => p.2)).Nodup := by
  induction l with
  | nil => intro n; simp [methodEntriesFrom]
  | cons m rest ih =>
      intro n
      simp only [methodEntriesFrom, List.map_cons, List.nodup_cons]
      refine ⟨fun hmem => ?_, ih (n + 1)⟩
      have := methodEntriesFrom_snd_ge rest (n + 1) n hmem
      omega

theorem buildMethodsTableGo_eq (l : List MethodInfo) :
    ∀ (acc : List (String × Nat)) (n : Nat),
      (∀ m ∈ l, m.JSMethodName ∉ dictKeys acc) →
      (l.map MethodInfo.JSMethodName).Nodup →
      buildMethodsTableGo acc n l = acc ++ methodEntriesFrom n l := by
  induction l with
  | nil => intro acc n _ _; simp [buildMethodsTableGo, methodEntriesFrom]
  | cons m rest ih =>
      intro acc n hfresh hnd
      have hm : m.JSMethodName ∉ dictKeys acc :=
        hfresh m (List.mem_cons_self m rest)
      rw [buildMethodsTableGo, dictInsert_of_not_mem acc _ _ hm]
      rw [List.map_cons, List.nodup_cons] at hnd
      rw [ih (acc ++ [(m.JSMethodName, n)]) (n + 1) ?_ hnd.2]
      · simp [methodEntriesFrom]
      · intro m2 hm2
        rw [dictKeys_append]
        intro hmem
        rcases List.mem_append.mp hmem with hmem | hmem
        · exact hfresh m2 (List.mem_cons_of_mem m hm2) hmem
        · simp only [dictKeys, List.map_cons, List.map_nil,
            List.mem_singleton] at hmem
          exact hnd.1 (hmem ▸ List.mem_map_of_mem MethodInfo.JSMethodName hm2)

theorem buildMethodsTable_eq (l : List MethodInfo)
    (hnd : (l.map MethodInfo.JSMethodName).Nodup) :
    buildMethodsTable l = methodEntriesFrom 0 l := by
  rw [buildMethodsTable, buildMethodsTableGo_eq l [] 0 (by simp [dictKeys]) hnd]
  rfl

/-- Characterization target for the `RCTRemoteModulesConfig` fold: the module
at position `p` of the enumeration receives module ID `n + p`. -/
def remoteModuleEntriesFrom (moduleClasses : List (String × ObjCClass))
    (n : Nat) : List (String × List MethodInfo) → List (String × RemoteModule)
  | [] => []
  | e :: rest =>
      (e.1, ⟨n, buildMethodsTable e.2,
        (dictLookup moduleClasses e.1).bind (fun cls => cls.constantsToExport)⟩)
        :: remoteModuleEntriesFrom moduleClasses (n + 1) rest

theorem remoteModuleEntriesFrom_moduleID_ge
    (moduleClasses : List (String × ObjCClass))
    (l : List (String × List MethodInfo)) :
    ∀ n v, v ∈ (remoteModuleEntriesFrom moduleClasses n l).map
      (fun p => p.2.moduleID) → n ≤ v := by
  induction l with
  | nil => intro n v hv; simp [remoteModuleEntriesFrom] at hv
  | cons e rest ih =>
      intro n v hv
      simp only [remoteModuleEntriesFrom, List.map_cons, List.mem_cons] at hv
      rcases hv with hv | hv
      · omega
      · have := ih (n + 1) v hv
        omega

theorem remoteModuleEntriesFrom_moduleID_nodup
    (moduleClasses : List (String × ObjCClass))
    (l : List (String × List MethodInfo)) :
    ∀ n, ((remoteModuleEntriesFrom moduleClasses n l).map
      (fun p => p.2.moduleID)).Nodup := by
  induction l with
  | nil => intro n; simp [remoteModuleEntriesFrom]
  | cons e rest ih =>
      intro n
      simp only [remoteModuleEntriesFrom, List.map_cons, List.nodup_cons]
      refine ⟨fun hmem => ?_, ih (n + 1)⟩
      have := remoteModuleEntriesFrom_moduleID_ge moduleClasses rest (n + 1)
        n hmem
      omega

theorem remoteModuleEntriesFrom_lookup
    (moduleClasses : List (String × ObjCClass))
    (l : List (String × List MethodInfo)) :
    ∀ n, ((l.map Prod.fst).Nodup) → ∀ e ∈ l,
      ∃ rm, dictLookup (remoteModuleEntriesFrom moduleClasses n l) e.1
          = some rm ∧ rm.methods = buildMethodsTable e.2 := by
  induction l with
  | nil => intro n _ e he; simp at he
  | cons e2 rest ih =>
      intro n hnd e he
      rw [List.map_cons, List.nodup_cons] at hnd
      rcases List.mem_cons.mp he with he | he
      · subst he
        refine ⟨⟨n, buildMethodsTable e.2,
          (dictLookup moduleClasses e.1).bind
            (fun cls => cls.constantsToExport)⟩, ?_, rfl⟩
        simp only [remoteModuleEntriesFrom]
        rw [dictLookup_cons, if_pos (by simp)]
      · have hne : ¬e2.1 = e.1 := by
          intro hx
          exact hnd.1 (hx ▸ List.mem_map_of_mem Prod.fst he)
        simp only [remoteModuleEntriesFrom]
        rw [dictLookup_cons, if_neg (by simpa using hne)]
        exact ih (n + 1) hnd.2 e he

theorem remoteConfigFold_eq (moduleClasses : List (String × ObjCClass))
    (l : List (String × List MethodInfo)) :
    ∀ (rm : List (String × RemoteModule)) (byID : List (Nat × String)),
      ((l.map Prod.fst).Nodup) →
      (∀ e ∈ l, e.1 ∉ dictKeys rm) →
      (∀ kk ∈ dictKeys byID, kk < rm.length) →
      (List.foldl (remoteConfigStep moduleClasses) ⟨rm, byID⟩ l).remoteModules
        = rm ++ remoteModuleEntriesFrom moduleClasses rm.length l := by
  induction l with
  | nil => intro rm byID _ _ _; simp [remoteModuleEntriesFrom]
  | cons e rest ih =>
      intro rm byID hnd hfresh hlt
      rw [List.map_cons, List.nodup_cons] at hnd
      have hm : e.1 ∉ dictKeys rm := hfresh e (List.mem_cons_self e rest)
      have hstep : remoteConfigStep moduleClasses ⟨rm, byID⟩ e =
          ⟨rm ++ [(e.1, ⟨rm.length, buildMethodsTable e.2,
            (dictLookup moduleClasses e.1).bind
              (fun cls => cls.constantsToExport)⟩)],
           byID ++ [(rm.length, e.1)]⟩ := by
        unfold remoteConfigStep
        dsimp only
        rw [dictInsert_of_not_mem rm _ _ hm,
          dictInsert_of_not_mem byID rm.length e.1 (fun hmem =>
            absurd (hlt rm.length hmem) (by omega))]
      rw [List.foldl_cons, hstep]
      rw [ih _ _ hnd.2 ?_ ?_]
      · rw [List.length_append, List.length_cons, List.length_nil]
        simp [remoteModuleEntriesFrom, List.append_assoc]
      · intro e2 he2
        rw [dictKeys_append]
        intro hmem
        rcases List.mem_append.mp hmem with hmem | hmem
        · exact hfresh e2 (List.mem_cons_of_mem e he2) hmem
        · simp only [dictKeys, List.map_cons, List.map_nil,
            List.mem_singleton] at hmem
          exact hnd.1 (hmem ▸ List.mem_map_of_mem Prod.fst he2)
      · intro kk hkk
        rw [dictKeys_append] at hkk
        rw [List.length_append, List.length_cons, List.length_nil]
        rcases List.mem_append.mp hkk with hkk | hkk
        · have := hlt kk hkk
          omega
        · simp only [dictKeys, List.map_cons, List.map_nil,
            List.mem_singleton] at hkk
          omega

/-- The invariant the `RCTLocalModulesConfig` fold maintains: module keys are
distinct, module IDs are exactly the positions `0, 1, …`, and within every
module the method IDs are exactly the positions `0, 1, …`. -/
def LocalConfigInv (cfg : LocalConfig) : Prop :=
  (dictKeys cfg.localModules).Nodup ∧
  cfg.localModules.map (fun p => p.2.moduleID)
    = List.range cfg.localModules.length ∧
  ∀ e ∈ cfg.localModules,
    (dictKeys e.2.methods).Nodup ∧
    e.2.methods.map (fun q => q.2) = List.range e.2.methods.length

theorem mem_dictKeys_of_lookup_some {k : Type} {a : Type} [BEq k]
    [LawfulBEq k] (m : List (k × a)) (key : k) (v : a)
    (h : dictLookup m key = some v) : key ∈ dictKeys m :=
  (dictContains_iff m key).mp (by simp [dictContains, h])

theorem localConfigStep_ok (cfg : LocalConfig) (s a b : String)
    (hab : componentsSeparatedByDot s = [a, b]) (hinv : LocalConfigInv cfg) :
    ∃ cfg2, localConfigStep (.ok cfg) s = .ok cfg2 ∧ LocalConfigInv cfg2 ∧
      (∀ x, x ∈ dictKeys cfg.localModuleIDs →
        x ∈ dictKeys cfg2.localModuleIDs) ∧
      (∀ x, x ∈ dictKeys cfg.localMethodIDs →
        x ∈ dictKeys cfg2.localMethodIDs) ∧
      s ∈ dictKeys cfg2.localModuleIDs ∧ s ∈ dictKeys cfg2.localMethodIDs := by
  obtain ⟨hk1, hk2, hk3⟩ := hinv
  cases hfound : dictLookup cfg.localModules a with
  | some m =>
      have hstep : localConfigStep (.ok cfg) s = .ok
          ⟨dictInsert cfg.localModules a
            ⟨m.moduleID,
             if dictContains m.methods b then m.methods
             else dictInsert m.methods b m.methods.length⟩,
           dictInsert cfg.localModuleIDs s m.moduleID,
           dictInsert cfg.localMethodIDs s
            ((dictLookup
              (if dictContains m.methods b then m.methods
               else dictInsert m.methods b m.methods.length) b).getD 0)⟩ := by
        simp only [localConfigStep, hab, hfound]
      refine ⟨_, hstep, ⟨?_, ?_, ?_⟩, ?_, ?_, ?_, ?_⟩
      · exact dictKeys_nodup_dictInsert _ _ _ hk1
      · dsimp only
        rw [dictInsert_map_snd cfg.localModules a
          ⟨m.moduleID, if dictContains m.methods b = true then m.methods
           else dictInsert m.methods b m.methods.length⟩ m
          (fun lm => lm.moduleID) hk1 hfound rfl]
        rw [dictInsert_length_of_mem cfg.localModules a _
          (mem_dictKeys_of_lookup_some _ _ _ hfound)]
        exact hk2
      · dsimp only
        intro e he
        rcases mem_dictInsert _ _ _ _ he with he2 | he2
        · have hm_mem : (a, m) ∈ cfg.localModules :=
            dictLookup_mem _ _ _ hfound
          have hmethods := hk3 (a, m) hm_mem
          by_cases hcon : dictContains m.methods b = true
          · rw [he2]
            simpa [hcon] using hmethods
          · have hbfresh : b ∉ dictKeys m.methods := by
              intro hmem
              exact absurd ((dictContains_iff _ _).mpr hmem) (by simpa using hcon)
            have hmeth1 : (if dictContains m.methods b = true then m.methods
                else dictInsert m.methods b m.methods.length)
                = m.methods ++ [(b, m.methods.length)] := by
              rw [if_neg hcon]
              exact dictInsert_of_not_mem _ _ _ hbfresh
            rw [he2]
            dsimp only
            rw [hmeth1]
            constructor
            · rw [dictKeys_append]
              refine List.Nodup.append hmethods.1 (List.nodup_singleton _) ?_
              intro x hx hx2
              simp only [dictKeys, List.map_cons, List.map_nil,
                List.mem_singleton] at hx2
              exact hbfresh (hx2 ▸ hx)
            · rw [List.map_append, List.length_append]
              have hm2 : List.map (fun q => q.2) m.methods
                  = List.range m.methods.length := hmethods.2
              rw [hm2]
              simp [List.range_succ]
        · exact hk3 e he2
      · intro x hx
        exact mem_dictKeys_dictInsert _ _ _ _ (Or.inl hx)
      · intro x hx
        exact mem_dictKeys_dictInsert _ _ _ _ (Or.inl hx)
      · exact mem_dictKeys_dictInsert _ _ _ _ (Or.inr rfl)
      · exact mem_dictKeys_dictInsert _ _ _ _ (Or.inr rfl)
  | none =>
      have hafresh : a ∉ dictKeys cfg.localModules :=
        (dictLookup_eq_none_iff _ _).mp hfound
      have hstep : localConfigStep (.ok cfg) s = .ok
          ⟨dictInsert (dictInsert cfg.localModules a
              ⟨cfg.localModules.length, []⟩) a
            ⟨cfg.localModules.length, dictInsert [] b 0⟩,
           dictInsert cfg.localModuleIDs s cfg.localModules.length,
           dictInsert cfg.localMethodIDs s
            ((dictLookup (dictInsert ([] : List (String × Nat)) b 0) b).getD 0)⟩ := by
        simp only [localConfigStep, hab, hfound]
        rfl
      have hl1 : dictInsert cfg.localModules a
          (⟨cfg.localModules.length, []⟩ : LocalModule)
          = cfg.localModules ++ [(a, ⟨cfg.localModules.length, []⟩)] :=
        dictInsert_of_not_mem _ _ _ hafresh
      have hlook1 : dictLookup (dictInsert cfg.localModules a
          (⟨cfg.localModules.length, []⟩ : LocalModule)) a
          = some ⟨cfg.localModules.length, []⟩ :=
        dictLookup_dictInsert_self _ _ _
      have hkeys1 : (dictKeys (dictInsert cfg.localModules a
          (⟨cfg.localModules.length, []⟩ : LocalModule))).Nodup :=
        dictKeys_nodup_dictInsert _ _ _ hk1
      refine ⟨_, hstep, ⟨?_, ?_, ?_⟩, ?_, ?_, ?_, ?_⟩
      · exact dictKeys_nodup_dictInsert _ _ _ hkeys1
      · dsimp only
        rw [dictInsert_map_snd _ a
          ⟨cfg.localModules.length, dictInsert [] b 0⟩
          ⟨cfg.localModules.length, []⟩
          (fun lm => lm.moduleID) hkeys1 hlook1 rfl]
        rw [dictInsert_length_of_mem _ a _
          (mem_dictKeys_of_lookup_some _ _ _ hlook1)]
        rw [hl1, List.map_append, List.length_append, hk2]
        simp [List.range_succ]
      · dsimp only
        intro e he
        rcases mem_dictInsert _ _ _ _ he with he2 | he2
        · rw [he2]
          constructor
          · simp [dictInsert, dictContains, dictLookup_nil, dictKeys]
          · rfl
        · rw [hl1] at he2
          rcases List.mem_append.mp he2 with he3 | he3
          · exact hk3 e he3
          · have : e = (a, ⟨cfg.localModules.length, []⟩) := by simpa using he3
            rw [this]
            constructor
            · simp [dictKeys]
            · simp
      · intro x hx
        exact mem_dictKeys_dictInsert _ _ _ _ (Or.inl hx)
      · intro x hx
        exact mem_dictKeys_dictInsert _ _ _ _ (Or.inl hx)
      · exact mem_dictKeys_dictInsert _ _ _ _ (Or.inr rfl)
      · exact mem_dictKeys_dictInsert _ _ _ _ (Or.inr rfl)

theorem localConfigFold (l : List String) :
    ∀ cfg, LocalConfigInv cfg →
    (∀ s ∈ l, ∃ a b, componentsSeparatedByDot s = [a, b]) →
    ∃ lc, List.foldl localConfigStep (.ok cfg) l = .ok lc ∧ LocalConfigInv lc ∧
      (∀ x, x ∈ dictKeys cfg.localModuleIDs →
        x ∈ dictKeys lc.localModuleIDs) ∧
      (∀ x, x ∈ dictKeys cfg.localMethodIDs →
        x ∈ dictKeys lc.localMethodIDs) ∧
      (∀ s ∈ l, s ∈ dictKeys lc.localModuleIDs ∧
        s ∈ dictKeys lc.localMethodIDs) := by
  induction l with
  | nil =>
      intro cfg hinv _
      exact ⟨cfg, rfl, hinv, fun x hx => hx, fun x hx => hx, by simp⟩
  | cons s rest ih =>
      intro cfg hinv hjs
      obtain ⟨a, b, hab⟩ := hjs s (List.mem_cons_self s rest)
      obtain ⟨cfg2, hstep, hinv2, hmono1, hmono2, hs1, hs2⟩ :=
        localConfigStep_ok cfg s a b hab hinv
      obtain ⟨lc, hfold, hinv3, hm1, hm2, hrest⟩ :=
        ih cfg2 hinv2 (fun t ht => hjs t (List.mem_cons_of_mem s ht))
      refine ⟨lc, ?_, hinv3, ?_, ?_, ?_⟩
      · rw [List.foldl_cons, hstep]
        exact hfold
      · exact fun x hx => hm1 x (hmono1 x hx)
      · exact fun x hx => hm2 x (hmono2 x hx)
      · intro t ht
        rcases List.mem_cons.mp ht with ht | ht
        · exact ht ▸ ⟨hm1 s hs1, hm2 s hs2⟩
        · exact hrest t ht

/--
Claim C9: for any discovered capability set with pairwise-distinct module
names (and, within each module, pairwise-distinct exposed method names) and
any well-formed `Module.method` name list, the registry builds assign module
IDs that are pairwise distinct across modules and, within each module, method
IDs that are pairwise distinct; and every discovered module and every
declared method appears in the built tables — for both the host-exposed
(remote) and the script-exposed (local) registries.
-/
theorem registry_build_unique_and_complete
    (moduleClasses : List (String × ObjCClass))
    (methodsByModule : List (String × List MethodInfo))
    (JSMethods : List String)
    (hmods : (dictKeys methodsByModule).Nodup)
    (hmeths : ∀ e ∈ methodsByModule,
      ((e.2).map MethodInfo.JSMethodName).Nodup)
    (hjs : ∀ s ∈ JSMethods, ∃ a b, componentsSeparatedByDot s = [a, b]) :
    (((RCTRemoteModulesConfig moduleClasses methodsByModule).remoteModules).map
        (fun p => p.2.moduleID)).Nodup ∧
    (∀ e ∈ methodsByModule, ∃ rm,
      dictLookup (RCTRemoteModulesConfig moduleClasses
        methodsByModule).remoteModules e.1 = some rm ∧
      ((rm.methods).map (fun q => q.2)).Nodup ∧
      ∀ meth ∈ e.2, ∃ mid,
        dictLookup rm.methods meth.JSMethodName = some mid) ∧
    (∃ lc, RCTLocalModulesConfig JSMethods = .ok lc ∧
      ((lc.localModules).map (fun p => p.2.moduleID)).Nodup ∧
      (∀ e ∈ lc.localModules, ((e.2.methods).map (fun q => q.2)).Nodup) ∧
      ∀ s ∈ JSMethods,
        s ∈ dictKeys lc.localModuleIDs ∧ s ∈ dictKeys lc.localMethodIDs) := by
  have hmods2 : (methodsByModule.map Prod.fst).Nodup := hmods
  have hchar : (RCTRemoteModulesConfig moduleClasses
      methodsByModule).remoteModules
      = remoteModuleEntriesFrom moduleClasses 0 methodsByModule := by
    have h := remoteConfigFold_eq moduleClasses methodsByModule [] []
      hmods2 (by simp [dictKeys]) (by simp [dictKeys])
    simpa [RCTRemoteModulesConfig] using h
  refine ⟨?_, ?_, ?_⟩
  · rw [hchar]
    exact remoteModuleEntriesFrom_moduleID_nodup moduleClasses methodsByModule 0
  · intro e he
    obtain ⟨rm, hlk, hmeq⟩ :=
      remoteModuleEntriesFrom_lookup moduleClasses methodsByModule 0 hmods2 e he
    refine ⟨rm, by rw [hchar]; exact hlk, ?_, ?_⟩
    · rw [hmeq, buildMethodsTable_eq e.2 (hmeths e he)]
      exact methodEntriesFrom_snd_nodup e.2 0
    · intro meth hmeth
      rw [hmeq, buildMethodsTable_eq e.2 (hmeths e he)]
      apply dictLookup_isSome_of_mem
      rw [dictKeys_methodEntriesFrom]
      exact List.mem_map_of_mem MethodInfo.JSMethodName hmeth
  · have hinv0 : LocalConfigInv ⟨[], [], []⟩ :=
      ⟨List.nodup_nil, rfl, by simp⟩
    obtain ⟨lc, hfold, hinv, _, _, hcomp⟩ :=
      localConfigFold JSMethods ⟨[], [], []⟩ hinv0 hjs
    refine ⟨lc, hfold, ?_, ?_, hcomp⟩
    · rw [hinv.2.1]
      exact List.nodup_range _
    · intro e he
      rw [(hinv.2.2 e he).2]
      exact List.nodup_range _

/-- Claim C9, witness: a one-module discovered set and a one-name script list
yield unique IDs and complete lookups in both registries. -/
theorem registry_build_unique_and_complete_witness :
    (((RCTRemoteModulesConfig []
        [("SampleModule", [sampleMethod])]).remoteModules).map
        (fun p => p.2.moduleID)).Nodup ∧
    (∀ e ∈ [("SampleModule", [sampleMethod])], ∃ rm,
      dictLookup (RCTRemoteModulesConfig []
        [("SampleModule", [sampleMethod])]).remoteModules e.1 = some rm ∧
      ((rm.methods).map (fun q => q.2)).Nodup ∧
      ∀ meth ∈ e.2, ∃ mid,
        dictLookup rm.methods meth.JSMethodName = some mid) ∧
    (∃ lc, RCTLocalModulesConfig ["Bundler.runApplication"] = .ok lc ∧
      ((lc.localModules).map (fun p => p.2.moduleID)).Nodup ∧
      (∀ e ∈ lc.localModules, ((e.2.methods).map (fun q => q.2)).Nodup) ∧
      ∀ s ∈ ["Bundler.runApplication"],
        s ∈ dictKeys lc.localModuleIDs ∧ s ∈ dictKeys lc.localMethodIDs) :=
  registry_build_unique_and_complete [] [("SampleModule", [sampleMethod])]
    ["Bundler.runApplication"] (by decide) (by decide)
    (fun s hs => by
      rw [List.mem_singleton] at hs
      exact ⟨"Bundler", "runApplication", by subst hs; decide⟩)

end ReactBridge
